import Mathlib

/-
Verification development for an STM8 firmware source file (main.c).

The definitions below are shallow embeddings of the C functions:
machine integers are modelled as Nat (or Int for signed types) with
explicit reductions modulo 2^w exactly where the C types wrap, loops
become structural recursion, and the variadic text formatter becomes a
function over an explicit byte list and argument list.
-/

/- 2^32, the modulus of the C type uint32_t. -/
def U32 : Nat := 4294967296

/- uint32_t subtraction a - b (operands already reduced below 2^32). -/
def sub32 (a b : Nat) : Nat := (a + U32 - b) % U32

/-
static uint32_t CalcSpeed(uint8_t freq, uint32_t ccr, uint8_t duty)
  return 1000000000UL / (((ccr * 1000UL) / freq) * (uint32_t)(duty));
(All intermediate values stay below 2^32 for the arguments the program
uses: ccr <= 4095 so ccr * 1000 <= 4095000, and the quotient of
1000000000 is below 2^32.)
-/
def CalcSpeed (freq ccr duty : Nat) : Nat :=
  1000000000 / (ccr * 1000 / freq * duty)

/-
static uint32_t CalcError(uint32_t req, uint32_t act)
  if (req > act) return ((req - act) * 10000) / req;
  return ((act - req) * 10000) / req;
The product (req - act) * 10000 is computed in uint32_t, hence the
reduction modulo 2^32 before the division.
-/
def CalcError (req act : Nat) : Nat :=
  if act < req then (req - act) * 10000 % U32 / req
  else (act - req) * 10000 % U32 / req

/- The four values I2C_CalculateCCR stores through its out parameters. -/
structure CCRResult where
  ccr : Nat
  duty : Nat
  actual : Nat
  error : Nat
deriving DecidableEq, Repr

/-
The fast-mode search loop of I2C_CalculateCCR
(for (i = 1; i < 4096; ++i) with duty multipliers 3 and 25).
fuel counts the remaining iterations; the initial call uses i = 1 and
fuel = 4095, and running out of fuel is the loop exhausting at i = 4096,
after which the sentinel result is stored.
-/
def fastLoop (freq speed : Nat) : Nat → Nat → Nat → CCRResult
  | _, _, 0 => ⟨0, 0, 0, 0⟩
  | prev, i, fuel + 1 =>
    let c0 := CalcSpeed freq i 3
    let c1 := CalcSpeed freq i 25
    if c0 = speed then ⟨i, 0, c0, 0⟩
    else if c1 = speed then ⟨i, 1, c1, 0⟩
    else if c0 < speed then
      if sub32 prev speed > speed - c0 then ⟨i, 0, c0, CalcError speed c0⟩
      else ⟨i - 1, 0, prev, CalcError speed prev⟩
    else fastLoop freq speed c0 (i + 1) fuel

/-
The standard-mode search loop of I2C_CalculateCCR
(duty multiplier 2, duty output always 0).
-/
def stdLoop (freq speed : Nat) : Nat → Nat → Nat → CCRResult
  | _, _, 0 => ⟨0, 0, 0, 0⟩
  | prev, i, fuel + 1 =>
    let c0 := CalcSpeed freq i 2
    if c0 = speed then ⟨i, 0, c0, 0⟩
    else if c0 < speed then
      if sub32 prev speed > speed - c0 then ⟨i, 0, c0, CalcError speed c0⟩
      else ⟨i - 1, 0, prev, CalcError speed prev⟩
    else stdLoop freq speed c0 (i + 1) fuel

/-
void I2C_CalculateCCR(uint8_t freq, uint32_t speed, uint16_t *ccr,
                      uint8_t *duty, uint32_t *actual, uint32_t *error)
-/
def I2C_CalculateCCR (freq speed : Nat) : CCRResult :=
  if 100000 < speed then fastLoop freq speed 0 1 4095
  else stdLoop freq speed 0 1 4095

/- Distance between two naturals, |a - b|. -/
def ndist (a b : Nat) : Nat := (a - b) + (b - a)

/- The duty multipliers the search uses for a requested speed. -/
def dutyMults (speed : Nat) : List Nat :=
  if 100000 < speed then [3, 25] else [2]

/- The multiplier encoded by the returned duty flag in each regime. -/
def dutyMult (speed duty : Nat) : Nat :=
  if 100000 < speed then (if duty = 1 then 25 else 3) else 2

/-
Circular buffer header state: the three index/size fields, all uint8_t.
(The stored size field is the byte count minus one, used as a mask.)
-/
structure CircBuf where
  bin : Nat
  bout : Nat
  size : Nat
deriving DecidableEq, Repr

/-
uint8_t CircBuf_Used(circular_buffer_t *buf)
  return (buf->in - buf->out) & buf->size;
The subtraction happens in the promoted integer type and the mask keeps
only bits of size (< 2^8), so reducing the difference modulo 2^8 is
exact for size < 256.
-/
def CircBuf_Used (buf : CircBuf) : Nat :=
  ((buf.bin + 256 - buf.bout) % 256) &&& buf.size

/-
uint16_t CircBuf_PercentUsed(circular_buffer_t *buf)
  return (10000 / ((CircBuf_Used(buf) * 100) / (buf->size + 1)));
The outer division has no guard; a zero divisor is division by zero in
C (undefined behaviour), modelled as none.
-/
def CircBuf_PercentUsed (buf : CircBuf) : Option Nat :=
  let q := CircBuf_Used buf * 100 / (buf.size + 1)
  if q = 0 then none else some (10000 / q)

/- Wrap an integer to the signed 8-bit type int8_t. -/
def i8 (v : Int) : Int := (v + 128) % 256 - 128

/- Wrap an integer to the signed 16-bit type int16_t (int on this port). -/
def i16 (v : Int) : Int := (v + 32768) % 65536 - 32768

/- Wrap an integer to the signed 32-bit type int32_t (long on this port). -/
def i32 (v : Int) : Int := (v + 2147483648) % 4294967296 - 2147483648

/-
The flag and counter variables OutputText resets for every new format
specification (justify_left, zero_padding, prefix_sign, prefix_space,
signed_argument, long_argument, char_argument, width, decimals).
width is uint8_t; decimals is int8_t and starts at -1.
-/
structure FmtSpec where
  justifyLeft : Bool := false
  zeroPadding : Bool := false
  signFlag : Bool := false
  spaceFlag : Bool := false
  signedArg : Bool := false
  longArg : Bool := false
  charArg : Bool := false
  width : Nat := 0
  decimals : Int := -1
deriving DecidableEq, Repr

/-
uint16_t StringLength(const char *str) counts bytes up to the first
NUL; a string argument is modelled as the byte list at the pointer, so
the count stops at the list end or at an embedded zero byte.
-/
def cstrLen : List Nat → Nat
  | [] => 0
  | c :: cs => if c = 0 then 0 else cstrLen cs + 1

/-
The string-emission loop of the s conversion:
  while ((c = *value.p) && (decimals-- > 0)) { OutputChar(c); ... }
-/
def sPrint : List Nat → Int → List Nat
  | [], _ => []
  | c :: cs, dec => if c = 0 then [] else if 0 < dec then c :: sPrint cs (dec - 1) else []

/-
The s conversion of OutputText: length is the uint8_t variable holding
StringLength's uint16_t result, decimals defaults to that length, and
the space padding on either side uses length (not the emitted count).
-/
def sDirective (jl : Bool) (width : Nat) (decimals : Int) (s : List Nat) : List Nat :=
  let len := cstrLen s % 65536 % 256
  let dec : Int := if decimals = -1 then i8 (Int.ofNat len) else decimals
  let body := sPrint s dec
  if jl then
    body ++ (if len < width then List.replicate (width - len) 32 else [])
  else
    (if len < width then List.replicate (width - len) 32 else []) ++ body

/-
The radix-conversion do-while of OutputText extracts the digits of
value.ul least significant first by 32-bit restoring division (the
inner 32-step shift loop leaves value.b[4] = ul % radix and
value.ul = ul / radix), packing two digits per byte of store; the later
emission loop unpacks them in the same order.  Net effect: the list of
base-radix digits, least significant first, with at least one digit.
fuel bounds the recursion; 34 exceeds the 32 digits a 32-bit value can
have in any radix >= 2, so the bound is never hit by the program.
-/
def digitsRev (radix : Nat) : Nat → Nat → List Nat
  | 0, v => [v]
  | fuel + 1, v =>
    if v / radix = 0 then [v % radix]
    else v % radix :: digitsRev radix fuel (v / radix)

/-
Digit emission: d = value.b[4] + '0'; if (d > '9') d += ('A' - '0' - 10).
-/
def digitChar (d : Nat) : Nat := if 57 < d + 48 then d + 55 else d + 48

/-
The fetch of value.l for a numeric conversion: va_arg as char, long or
int according to the b/l flags, with the unsigned masks &= 0xFF and
&= 0xFFFF applied when the conversion is not signed.
-/
def numValue (sp : FmtSpec) (v : Int) : Int :=
  if sp.charArg then
    let l := i8 v
    if sp.signedArg then l else l % 256
  else if sp.longArg then i32 v
  else
    let l := i16 v
    if sp.signedArg then l else l % 65536

/-
The numeric-emission tail of OutputText (the if (radix != 0) block):
sign handling, the three padding loops and the digit loop, emitted in
program order.  Subtractions on width never underflow (width >= 1 after
the width == 0 fixup and the first loop stops at length + 1), so Nat
subtraction is exact here.
-/
def numDirective (sp : FmtSpec) (radix : Nat) (v : Int) : List Nat :=
  let l := numValue sp v
  let neg : Bool := sp.signedArg && decide (l < 0)
  let ul : Nat := (if neg then (-l) % (4294967296 : Int) else l % (4294967296 : Int)).toNat
  let digits := digitsRev radix 34 ul
  let len := digits.length
  let w0 := if sp.width = 0 then 1 else sp.width
  let pads1 := if ¬sp.zeroPadding ∧ ¬sp.justifyLeft then w0 - (len + 1) else 0
  let w1 := w0 - pads1
  let signChars : List Nat :=
    if neg then [45] else if sp.signFlag then [43] else if sp.spaceFlag then [32] else []
  let w2 := w1 - signChars.length
  let padChar := if sp.zeroPadding then 48 else 32
  let pads2 := if ¬sp.justifyLeft then w2 - len else 0
  let w3 := if sp.justifyLeft then w2 - len else 0
  List.replicate pads1 32 ++ signChars ++ List.replicate pads2 padChar
    ++ (digits.reverse).map digitChar ++ List.replicate w3 32

/- A variadic argument: an integer-typed value or a string pointer. -/
inductive FmtArg where
  | num (v : Int)
  | str (s : List Nat)
deriving DecidableEq, Repr

/- One uint16_t char_count increment repeated n times. -/
def bump (cnt n : Nat) : Nat := (cnt + n) % 65536

/-
The scan loop of OutputText over the bytes of memory at the format
pointer.  The Option FmtSpec state is none in the top-level
while (c = *format++) loop and some sp while scanning a format
specification (the next_format_char chain).  The result carries the
bytes handed to OutputChar and the char_count value; error means the
scan consumed all modelled memory without the top-level loop seeing a
NUL (it read past the modelled bytes), or a va_arg fetch had no
matching argument (undefined behaviour in the source).
-/
def otStep : List Nat → List FmtArg → Option FmtSpec → List Nat → Nat →
    Except (List Nat × Nat) (List Nat × Nat)
  | [], _, _, out, cnt => .error (out, cnt)
  | c :: rest, args, none, out, cnt =>
    if c = 0 then .ok (out, cnt)
    else if c = 37 then otStep rest args (some {}) out cnt
    else otStep rest args none (out ++ [c]) (bump cnt 1)
  | c :: rest, args, some sp, out, cnt =>
    if c = 37 then otStep rest args none (out ++ [37]) (bump cnt 1)
    else if 48 ≤ c ∧ c ≤ 57 then
      if sp.decimals = -1 then
        let w := (10 * sp.width + (c - 48)) % 256
        otStep rest args
          (some { sp with width := w, zeroPadding := if w = 0 then true else sp.zeroPadding })
          out cnt
      else
        otStep rest args (some { sp with decimals := i8 (10 * sp.decimals + (c - 48)) }) out cnt
    else if c = 46 then otStep rest args (some { sp with decimals := 0 }) out cnt
    else if c = 45 then otStep rest args (some { sp with justifyLeft := true }) out cnt
    else if c = 43 then otStep rest args (some { sp with signFlag := true }) out cnt
    else if c = 32 then otStep rest args (some { sp with spaceFlag := true }) out cnt
    else if c = 108 then otStep rest args (some { sp with longArg := true }) out cnt
    else if c = 98 then otStep rest args (some { sp with charArg := true }) out cnt
    else if c = 100 ∨ c = 105 then
      match args with
      | FmtArg.num v :: args2 =>
        let em := numDirective { sp with signedArg := true } 10 v
        otStep rest args2 none (out ++ em) (bump cnt em.length)
      | _ => .error (out, cnt)
    else if c = 112 ∨ c = 117 then
      match args with
      | FmtArg.num v :: args2 =>
        let em := numDirective sp 10 v
        otStep rest args2 none (out ++ em) (bump cnt em.length)
      | _ => .error (out, cnt)
    else if c = 120 then
      match args with
      | FmtArg.num v :: args2 =>
        let em := numDirective sp 16 v
        otStep rest args2 none (out ++ em) (bump cnt em.length)
      | _ => .error (out, cnt)
    else if c = 99 then
      match args with
      | FmtArg.num v :: args2 =>
        otStep rest args2 none
          (out ++ [((if sp.charArg then i8 v else i16 v) % 256).toNat]) (bump cnt 1)
      | _ => .error (out, cnt)
    else if c = 115 then
      match args with
      | FmtArg.str s :: args2 =>
        let em := sDirective sp.justifyLeft sp.width sp.decimals s
        otStep rest args2 none (out ++ em) (bump cnt em.length)
      | _ => .error (out, cnt)
    else otStep rest args none (out ++ [c]) (bump cnt 1)

/-
uint16_t OutputText(const char *format, ...): fmt is the byte list of
memory at the format pointer (the intended string followed by its NUL
terminator), args the variadic arguments in order.
-/
def OutputText (fmt : List Nat) (args : List FmtArg) :
    Except (List Nat × Nat) (List Nat × Nat) :=
  otStep fmt args none [] 0

/- CalcError on equal arguments is zero. -/
theorem calcError_self (a : Nat) : CalcError a a = 0 := by
  unfold CalcError
  simp

/- The uint32_t subtraction agrees with Nat subtraction when no borrow occurs. -/
theorem sub32_of_le (a b : Nat) (hba : b ≤ a) (ha : a < U32) : sub32 a b = a - b := by
  unfold sub32
  have h1 : a + U32 - b = U32 + (a - b) := by omega
  rw [h1, Nat.add_mod_left]
  exact Nat.mod_eq_of_lt (by omega)

/- If every probed speed in the remaining fast-mode iterations stays above
the target and the duty-1 speed never matches it exactly, the loop ends in
the sentinel store. -/
theorem fastLoop_exhaust (freq speed : Nat) : ∀ fuel i prev,
    (∀ j, i ≤ j → j < i + fuel →
      speed < CalcSpeed freq j 3 ∧ CalcSpeed freq j 25 ≠ speed) →
    fastLoop freq speed prev i fuel = ⟨0, 0, 0, 0⟩ := by
  intro fuel
  induction fuel with
  | zero => intro i prev _; rfl
  | succ n ih =>
    intro i prev h
    have hi := h i (le_refl i) (by omega)
    have h1 : ¬ (CalcSpeed freq i 3 = speed) := by omega
    have h2 : ¬ (CalcSpeed freq i 3 < speed) := by omega
    simp only [fastLoop, h1, hi.2, h2, if_false]
    exact ih (i + 1) _ (fun j hj1 hj2 => h j (by omega) (by omega))

/- Standard-mode analogue of fastLoop_exhaust. -/
theorem stdLoop_exhaust (freq speed : Nat) : ∀ fuel i prev,
    (∀ j, i ≤ j → j < i + fuel → speed < CalcSpeed freq j 2) →
    stdLoop freq speed prev i fuel = ⟨0, 0, 0, 0⟩ := by
  intro fuel
  induction fuel with
  | zero => intro i prev _; rfl
  | succ n ih =>
    intro i prev h
    have hi := h i (le_refl i) (by omega)
    have h1 : ¬ (CalcSpeed freq i 2 = speed) := by omega
    have h2 : ¬ (CalcSpeed freq i 2 < speed) := by omega
    simp only [stdLoop, h1, h2, if_false]
    exact ih (i + 1) _ (fun j hj1 hj2 => h j (by omega) (by omega))

/- For a uint8_t reference frequency, every standard-mode divider speed
exceeds the reference value itself. -/
theorem calcSpeed_gt_freq (freq i : Nat) (hf1 : 1 ≤ freq) (hf2 : freq ≤ 255)
    (hi1 : 1 ≤ i) (hi2 : i ≤ 4095) : freq < CalcSpeed freq i 2 := by
  unfold CalcSpeed
  have hk1 : 1 ≤ i * 1000 / freq := by
    have hle : freq ≤ i * 1000 := by
      have : 1 * 1000 ≤ i * 1000 := Nat.mul_le_mul_right 1000 hi1
      omega
    exact (Nat.one_le_div_iff (by omega)).mpr hle
  have h2k : 0 < i * 1000 / freq * 2 := by omega
  have e3 : i * 1000 / freq * freq ≤ i * 1000 := Nat.div_mul_le_self _ _
  have e4 : i * 1000 ≤ 4095000 := by omega
  have key : (freq + 1) * (i * 1000 / freq * 2) ≤ 1000000000 := by
    nlinarith [hk1, h2k, e3, e4, hf1, hf2]
  have : freq + 1 ≤ 1000000000 / (i * 1000 / freq * 2) :=
    (Nat.le_div_iff_mul_le h2k).mpr key
  omega

/-- C5: for fixed reference frequency freq in [1,255] and a fixed duty
multiplier, CalcSpeed(freq, ccr, duty) is monotonically non-increasing in
ccr over [1,4095]: ccr1 <= ccr2 implies
CalcSpeed freq ccr1 duty >= CalcSpeed freq ccr2 duty. -/
theorem calcSpeed_antitone (freq duty c1 c2 : Nat) (hf1 : 0 < freq) (hf2 : freq ≤ 255)
    (h1 : 1 ≤ c1) (h12 : c1 ≤ c2) (h2 : c2 ≤ 4095) :
    CalcSpeed freq c2 duty ≤ CalcSpeed freq c1 duty := by
  unfold CalcSpeed
  rcases Nat.eq_zero_or_pos duty with hd | hd
  · simp [hd]
  · apply Nat.div_le_div_left
    · exact Nat.mul_le_mul_right _ (Nat.div_le_div_right (Nat.mul_le_mul_right _ h12))
    · have hle : freq ≤ c1 * 1000 := by
        have : 1 * 1000 ≤ c1 * 1000 := Nat.mul_le_mul_right 1000 h1
        omega
      have hk : 0 < c1 * 1000 / freq := (Nat.one_le_div_iff hf1).mpr hle
      exact Nat.mul_pos hk hd

/-- Witness for calcSpeed_antitone at freq 16, duty 3, ccr 20 <= 30. -/
theorem calcSpeed_antitone_witness : CalcSpeed 16 30 3 ≤ CalcSpeed 16 20 3 :=
  calcSpeed_antitone 16 3 20 30 (by decide) (by decide) (by decide) (by decide) (by decide)

/-- C1: for a reference frequency freq in [1,255] (uint8_t, positive) and a
requested speed in (0, freq], I2C_CalculateCCR returns either the all-zero
sentinel result or a ccr in [1,4095] whose achieved speed is closest to the
requested speed among all ccr in [1,4095] under the duty multipliers
applicable to that speed regime (3 and 25 above 100000, 2 otherwise). -/
theorem ccr_search_optimal (freq speed : Nat) (hf1 : 1 ≤ freq) (hf2 : freq ≤ 255)
    (hs1 : 1 ≤ speed) (hs2 : speed ≤ freq) :
    I2C_CalculateCCR freq speed = ⟨0, 0, 0, 0⟩ ∨
      (1 ≤ (I2C_CalculateCCR freq speed).ccr ∧ (I2C_CalculateCCR freq speed).ccr ≤ 4095 ∧
       ∀ c, c < 4096 → 1 ≤ c → ∀ m, m ∈ dutyMults speed →
         ndist speed (I2C_CalculateCCR freq speed).actual ≤
           ndist speed (CalcSpeed freq c m)) := by
  left
  unfold I2C_CalculateCCR
  have hs : ¬ (100000 < speed) := by omega
  rw [if_neg hs]
  apply stdLoop_exhaust
  intro j hj1 hj2
  exact lt_of_le_of_lt hs2 (calcSpeed_gt_freq freq j hf1 hf2 hj1 (by omega))

/-- Witness for ccr_search_optimal at freq 1, speed 1. -/
theorem ccr_search_optimal_witness :
    I2C_CalculateCCR 1 1 = ⟨0, 0, 0, 0⟩ ∨
      (1 ≤ (I2C_CalculateCCR 1 1).ccr ∧ (I2C_CalculateCCR 1 1).ccr ≤ 4095 ∧
       ∀ c, c < 4096 → 1 ≤ c → ∀ m, m ∈ dutyMults 1 →
         ndist 1 (I2C_CalculateCCR 1 1).actual ≤ ndist 1 (CalcSpeed 1 c m)) :=
  ccr_search_optimal 1 1 (by decide) (by decide) (by decide) (by decide)

/-- C6: if every divider in [1,4095] achieves a speed strictly above the
requested speed under the regime's proximity multiplier and (in fast mode)
the duty-1 speed never matches it exactly — i.e. the search loop exhausts —
then I2C_CalculateCCR stores the sentinel result ccr=0, duty=0, actual=0,
error=0 and returns normally. -/
theorem ccr_search_exhaust_sentinel (freq speed : Nat)
    (h : ∀ i, i < 4096 → 1 ≤ i →
      speed < CalcSpeed freq i (if 100000 < speed then 3 else 2) ∧
      (100000 < speed → CalcSpeed freq i 25 ≠ speed)) :
    I2C_CalculateCCR freq speed = ⟨0, 0, 0, 0⟩ := by
  unfold I2C_CalculateCCR
  by_cases hs : 100000 < speed
  · rw [if_pos hs]
    apply fastLoop_exhaust
    intro j hj1 hj2
    obtain ⟨ha, hb⟩ := h j (by omega) (by omega)
    rw [if_pos hs] at ha
    exact ⟨ha, hb hs⟩
  · rw [if_neg hs]
    apply stdLoop_exhaust
    intro j hj1 hj2
    have ha := (h j (by omega) (by omega)).1
    rwa [if_neg hs] at ha

/-- Witness for ccr_search_exhaust_sentinel at freq 255, speed 1: every
standard-mode divider speed exceeds 255 >= 1, so the loop exhausts. -/
theorem ccr_search_exhaust_sentinel_witness : I2C_CalculateCCR 255 1 = ⟨0, 0, 0, 0⟩ :=
  ccr_search_exhaust_sentinel 255 1 (fun i h1 h2 =>
    ⟨by
      rw [if_neg (by decide)]
      exact lt_of_le_of_lt (by decide)
        (calcSpeed_gt_freq 255 i (by decide) (by decide) h2 (by omega)),
     fun hf => absurd hf (by decide)⟩)

/-- C10: CircBuf_PercentUsed divides by zero exactly when
CircBuf_Used(buf) * 100 < buf.size + 1 — in particular for every empty
buffer state (in == out), where CircBuf_Used returns 0 — and is
well-defined only otherwise. -/
theorem percentUsed_div_by_zero (buf : CircBuf) :
    (CircBuf_PercentUsed buf = none ↔ CircBuf_Used buf * 100 < buf.size + 1) ∧
    (buf.bin = buf.bout → CircBuf_PercentUsed buf = none) := by
  have hq : CircBuf_Used buf * 100 / (buf.size + 1) = 0 ↔
      CircBuf_Used buf * 100 < buf.size + 1 :=
    Nat.div_eq_zero_iff (Nat.succ_pos _)
  constructor
  · constructor
    · intro hnone
      rw [← hq]
      by_contra hne
      unfold CircBuf_PercentUsed at hnone
      simp [hne] at hnone
    · intro hlt
      unfold CircBuf_PercentUsed
      simp [hq.mpr hlt]
  · intro h
    have hused : CircBuf_Used buf = 0 := by
      unfold CircBuf_Used
      rw [h]
      have he : buf.bout + 256 - buf.bout = 256 := by omega
      rw [he]
      simp
    unfold CircBuf_PercentUsed
    simp [hused]

/-- Witness for percentUsed_div_by_zero at the empty state in = out = 5,
size mask 15. -/
theorem percentUsed_div_by_zero_witness : CircBuf_PercentUsed ⟨5, 5, 15⟩ = none :=
  (percentUsed_div_by_zero ⟨5, 5, 15⟩).2 rfl

/- Achieved speeds are quotients of 10^9 and hence below 2^32. -/
theorem calcSpeed_lt_u32 (freq ccr duty : Nat) : CalcSpeed freq ccr duty < U32 := by
  unfold CalcSpeed U32
  have := Nat.div_le_self 1000000000 (ccr * 1000 / freq * duty)
  omega

/- If the duty-0 speed first falls below the target at divider t (no exact
duty-0 or duty-1 match up to there), the fast loop resolves the proximity
choice at t, against the previous tracked speed (the loop entry value when
t is the first iteration). -/
theorem fastLoop_drop (freq speed : Nat) : ∀ fuel i prev t,
    i ≤ t → t < i + fuel →
    (∀ j, i ≤ j → j < t → speed < CalcSpeed freq j 3 ∧ CalcSpeed freq j 25 ≠ speed) →
    CalcSpeed freq t 3 < speed → CalcSpeed freq t 25 ≠ speed →
    fastLoop freq speed prev i fuel =
      (if sub32 (if t = i then prev else CalcSpeed freq (t - 1) 3) speed >
          speed - CalcSpeed freq t 3
       then ⟨t, 0, CalcSpeed freq t 3, CalcError speed (CalcSpeed freq t 3)⟩
       else ⟨t - 1, 0, if t = i then prev else CalcSpeed freq (t - 1) 3,
             CalcError speed (if t = i then prev else CalcSpeed freq (t - 1) 3)⟩) := by
  intro fuel
  induction fuel with
  | zero => intro i prev t h1 h2 _ _ _; omega
  | succ n ih =>
    intro i prev t h1 h2 hmid hdrop hne
    by_cases hti : t = i
    · subst hti
      have h0 : ¬ (CalcSpeed freq t 3 = speed) := by omega
      simp only [fastLoop, h0, hne, if_false, hdrop, if_true, if_pos rfl]
    · have hit : i < t := by omega
      have hm := hmid i (le_refl i) hit
      have h0 : ¬ (CalcSpeed freq i 3 = speed) := by omega
      have hnl : ¬ (CalcSpeed freq i 3 < speed) := by omega
      simp only [fastLoop, h0, hm.2, hnl, if_false]
      rw [ih (i + 1) (CalcSpeed freq i 3) t (by omega) (by omega)
        (fun j hj1 hj2 => hmid j (by omega) hj2) hdrop hne]
      by_cases ht1 : t = i + 1
      · have he : t - 1 = i := by omega
        simp [ht1, hti, he]
      · simp [ht1, hti]

/-- C3 (amended): in the fast regime, when the duty-0 speed first falls
below the requested speed at a divider t >= 2 with no exact duty-0 or
duty-1 match up to there, I2C_CalculateCCR returns duty 0 and picks
between t and t-1 by a strict greater-than comparison of the distances of
their duty-0 speeds to the target, returning t-1 on ties; the duty-1
(multiplier 25) candidate only feeds the exact-match short-circuit. -/
theorem fast_proximity (freq speed t : Nat) (hfast : 100000 < speed)
    (ht2 : 2 ≤ t) (ht : t ≤ 4095)
    (hmid : ∀ j, j < t → 1 ≤ j →
      speed < CalcSpeed freq j 3 ∧ CalcSpeed freq j 25 ≠ speed)
    (hdrop : CalcSpeed freq t 3 < speed) (hne : CalcSpeed freq t 25 ≠ speed) :
    (I2C_CalculateCCR freq speed).duty = 0 ∧
    (if CalcSpeed freq (t - 1) 3 - speed > speed - CalcSpeed freq t 3
     then (I2C_CalculateCCR freq speed).ccr = t ∧
          (I2C_CalculateCCR freq speed).actual = CalcSpeed freq t 3
     else (I2C_CalculateCCR freq speed).ccr = t - 1 ∧
          (I2C_CalculateCCR freq speed).actual = CalcSpeed freq (t - 1) 3) := by
  have hprev := hmid (t - 1) (by omega) (by omega)
  unfold I2C_CalculateCCR
  rw [if_pos hfast]
  rw [fastLoop_drop freq speed 4095 1 0 t (by omega) (by omega)
    (fun j hj1 hj2 => hmid j hj2 hj1) hdrop hne]
  have hti : ¬ (t = 1) := by omega
  rw [if_neg hti]
  rw [sub32_of_le _ _ (le_of_lt hprev.1) (calcSpeed_lt_u32 freq (t - 1) 3)]
  by_cases hcmp : CalcSpeed freq (t - 1) 3 - speed > speed - CalcSpeed freq t 3
  · rw [if_pos hcmp, if_pos hcmp]
    exact ⟨rfl, rfl, rfl⟩
  · rw [if_neg hcmp, if_neg hcmp]
    exact ⟨rfl, rfl, rfl⟩

/-- Counterexample to C3 as stated: at freq 1, speed 4000000000 the first
drop happens at divider 1, the current divider's speed is strictly closer
to the target than the tracked previous speed 0, yet the wrapped uint32
comparison makes the code return the previous divider 0 with actual 0. -/
theorem fast_proximity_counterexample :
    100000 < 4000000000 ∧
    CalcSpeed 1 1 3 < 4000000000 ∧ CalcSpeed 1 1 25 ≠ 4000000000 ∧
    ndist 4000000000 (CalcSpeed 1 1 3) < ndist 4000000000 0 ∧
    (I2C_CalculateCCR 1 4000000000).ccr = 0 ∧
    (I2C_CalculateCCR 1 4000000000).actual = 0 := by decide

/-- Witness for fast_proximity at freq 16, speed 400000, drop at t = 14. -/
theorem fast_proximity_witness :
    (I2C_CalculateCCR 16 400000).duty = 0 ∧
    (if CalcSpeed 16 (14 - 1) 3 - 400000 > 400000 - CalcSpeed 16 14 3
     then (I2C_CalculateCCR 16 400000).ccr = 14 ∧
          (I2C_CalculateCCR 16 400000).actual = CalcSpeed 16 14 3
     else (I2C_CalculateCCR 16 400000).ccr = 14 - 1 ∧
          (I2C_CalculateCCR 16 400000).actual = CalcSpeed 16 (14 - 1) 3) :=
  fast_proximity 16 400000 14 (by decide) (by decide) (by decide)
    (by decide) (by decide) (by decide)

/- Every non-sentinel fast-loop exit stores error = CalcError speed actual. -/
theorem fastLoop_error (freq speed : Nat) : ∀ fuel i prev,
    (fastLoop freq speed prev i fuel).ccr ≠ 0 →
    (fastLoop freq speed prev i fuel).error =
      CalcError speed (fastLoop freq speed prev i fuel).actual := by
  intro fuel
  induction fuel with
  | zero => intro i prev h; simp [fastLoop] at h
  | succ n ih =>
    intro i prev h
    simp only [fastLoop] at h ⊢
    by_cases h0 : CalcSpeed freq i 3 = speed
    · simp [h0, calcError_self]
    · by_cases h1 : CalcSpeed freq i 25 = speed
      · simp [h0, h1, calcError_self]
      · by_cases h2 : CalcSpeed freq i 3 < speed
        · by_cases h3 : sub32 prev speed > speed - CalcSpeed freq i 3
          · simp [h0, h1, h2, h3]
          · simp [h0, h1, h2, h3]
        · simp only [h0, h1, h2, if_false] at h ⊢
          exact ih (i + 1) (CalcSpeed freq i 3) h

/- Standard-mode analogue of fastLoop_error. -/
theorem stdLoop_error (freq speed : Nat) : ∀ fuel i prev,
    (stdLoop freq speed prev i fuel).ccr ≠ 0 →
    (stdLoop freq speed prev i fuel).error =
      CalcError speed (stdLoop freq speed prev i fuel).actual := by
  intro fuel
  induction fuel with
  | zero => intro i prev h; simp [stdLoop] at h
  | succ n ih =>
    intro i prev h
    simp only [stdLoop] at h ⊢
    by_cases h0 : CalcSpeed freq i 2 = speed
    · simp [h0, calcError_self]
    · by_cases h2 : CalcSpeed freq i 2 < speed
      · by_cases h3 : sub32 prev speed > speed - CalcSpeed freq i 2
        · simp [h0, h2, h3]
        · simp [h0, h2, h3]
      · simp only [h0, h2, if_false] at h ⊢
        exact ih (i + 1) (CalcSpeed freq i 2) h

/- Any non-sentinel I2C_CalculateCCR result relates error and actual by
CalcError. -/
theorem i2c_error_calcError (freq speed : Nat)
    (h : (I2C_CalculateCCR freq speed).ccr ≠ 0) :
    (I2C_CalculateCCR freq speed).error =
      CalcError speed (I2C_CalculateCCR freq speed).actual := by
  by_cases hs : 100000 < speed
  · simp only [I2C_CalculateCCR, if_pos hs] at h ⊢
    exact fastLoop_error freq speed 4095 1 0 h
  · simp only [I2C_CalculateCCR, if_neg hs] at h ⊢
    exact stdLoop_error freq speed 4095 1 0 h

/-- C7 (amended): whenever I2C_CalculateCCR returns a non-sentinel result
(ccr nonzero) with achieved speed act for requested speed req, and the
product |req - act| * 10000 does not overflow 32 bits, the returned error
equals |req - act| * 10000 / req with truncating division (in general the
uint32_t product wraps modulo 2^32 before the division). -/
theorem ccr_error_exact (freq speed : Nat)
    (hccr : (I2C_CalculateCCR freq speed).ccr ≠ 0)
    (hsmall : ndist speed (I2C_CalculateCCR freq speed).actual * 10000 < U32) :
    (I2C_CalculateCCR freq speed).error =
      ndist speed (I2C_CalculateCCR freq speed).actual * 10000 / speed := by
  rw [i2c_error_calcError freq speed hccr]
  unfold ndist at hsmall ⊢
  unfold CalcError
  by_cases hlt : (I2C_CalculateCCR freq speed).actual < speed
  · rw [if_pos hlt]
    have he : speed - (I2C_CalculateCCR freq speed).actual +
        ((I2C_CalculateCCR freq speed).actual - speed) =
        speed - (I2C_CalculateCCR freq speed).actual := by omega
    rw [he] at hsmall ⊢
    rw [Nat.mod_eq_of_lt hsmall]
  · rw [if_neg hlt]
    have he : speed - (I2C_CalculateCCR freq speed).actual +
        ((I2C_CalculateCCR freq speed).actual - speed) =
        (I2C_CalculateCCR freq speed).actual - speed := by omega
    rw [he] at hsmall ⊢
    rw [Nat.mod_eq_of_lt hsmall]

/-- Counterexample to C7 as stated: at freq 1, speed 4000000 the result is
non-sentinel (ccr = 1) but (req - act) * 10000 overflows uint32_t, so the
stored error differs from the exact |req - act| * 10000 / req. -/
theorem ccr_error_overflow_counterexample :
    (I2C_CalculateCCR 1 4000000).ccr ≠ 0 ∧
    (I2C_CalculateCCR 1 4000000).error ≠
      ndist 4000000 (I2C_CalculateCCR 1 4000000).actual * 10000 / 4000000 := by
  decide

/-- Witness for ccr_error_exact at freq 16, speed 400000. -/
theorem ccr_error_exact_witness :
    (I2C_CalculateCCR 16 400000).error =
      ndist 400000 (I2C_CalculateCCR 16 400000).actual * 10000 / 400000 :=
  ccr_error_exact 16 400000 (by decide) (by decide)

/- Every non-sentinel fast-loop exit stores the duty-0 or duty-1 speed of
the stored divider, given the tracked previous speed belongs to the
previous divider (or is the loop's initial 0 at i = 1). -/
theorem fastLoop_actual (freq speed : Nat) : ∀ fuel i prev,
    1 ≤ i → (i = 1 ∧ prev = 0 ∨ prev = CalcSpeed freq (i - 1) 3) →
    (fastLoop freq speed prev i fuel).ccr ≠ 0 →
    (fastLoop freq speed prev i fuel).actual =
      CalcSpeed freq (fastLoop freq speed prev i fuel).ccr
        (if (fastLoop freq speed prev i fuel).duty = 1 then 25 else 3) := by
  intro fuel
  induction fuel with
  | zero => intro i prev _ _ h; simp [fastLoop] at h
  | succ n ih =>
    intro i prev hi hprev h
    simp only [fastLoop] at h ⊢
    by_cases h0 : CalcSpeed freq i 3 = speed
    · simp [h0]
    · by_cases h1 : CalcSpeed freq i 25 = speed
      · simp [h0, h1]
      · by_cases h2 : CalcSpeed freq i 3 < speed
        · by_cases h3 : sub32 prev speed > speed - CalcSpeed freq i 3
          · simp [h0, h1, h2, h3]
          · simp only [h0, h1, h2, h3, if_false, if_true] at h ⊢
            rcases hprev with ⟨hi1, hp⟩ | hp
            · subst hi1
              simp at h
            · simp [hp]
        · simp only [h0, h1, h2, if_false] at h ⊢
          exact ih (i + 1) (CalcSpeed freq i 3) (by omega)
            (Or.inr (by simp)) h

/- Standard-mode analogue of fastLoop_actual: the stored actual is the
multiplier-2 speed of the stored divider. -/
theorem stdLoop_actual (freq speed : Nat) : ∀ fuel i prev,
    1 ≤ i → (i = 1 ∧ prev = 0 ∨ prev = CalcSpeed freq (i - 1) 2) →
    (stdLoop freq speed prev i fuel).ccr ≠ 0 →
    (stdLoop freq speed prev i fuel).actual =
      CalcSpeed freq (stdLoop freq speed prev i fuel).ccr 2 := by
  intro fuel
  induction fuel with
  | zero => intro i prev _ _ h; simp [stdLoop] at h
  | succ n ih =>
    intro i prev hi hprev h
    simp only [stdLoop] at h ⊢
    by_cases h0 : CalcSpeed freq i 2 = speed
    · simp [h0]
    · by_cases h2 : CalcSpeed freq i 2 < speed
      · by_cases h3 : sub32 prev speed > speed - CalcSpeed freq i 2
        · simp [h0, h2, h3]
        · simp only [h0, h2, h3, if_false, if_true] at h ⊢
          rcases hprev with ⟨hi1, hp⟩ | hp
          · subst hi1
            simp at h
          · simp [hp]
      · simp only [h0, h2, if_false] at h ⊢
        exact ih (i + 1) (CalcSpeed freq i 2) (by omega)
          (Or.inr (by simp)) h

/-- C9: for every non-sentinel result of I2C_CalculateCCR, recomputing
CalcSpeed at the returned ccr with the multiplier encoded by the returned
duty in that regime (3 for duty 0 and 25 for duty 1 in fast mode, 2 in
standard mode) reproduces the returned actual value exactly. -/
theorem ccr_actual_roundtrip (freq speed : Nat)
    (hccr : (I2C_CalculateCCR freq speed).ccr ≠ 0) :
    (I2C_CalculateCCR freq speed).actual =
      CalcSpeed freq (I2C_CalculateCCR freq speed).ccr
        (dutyMult speed (I2C_CalculateCCR freq speed).duty) := by
  by_cases hs : 100000 < speed
  · simp only [I2C_CalculateCCR, dutyMult, if_pos hs] at hccr ⊢
    exact fastLoop_actual freq speed 4095 1 0 (by omega) (Or.inl ⟨rfl, rfl⟩) hccr
  · simp only [I2C_CalculateCCR, dutyMult, if_neg hs] at hccr ⊢
    exact stdLoop_actual freq speed 4095 1 0 (by omega) (Or.inl ⟨rfl, rfl⟩) hccr

/-- Witness for ccr_actual_roundtrip at freq 16, speed 400000. -/
theorem ccr_actual_roundtrip_witness :
    (I2C_CalculateCCR 16 400000).actual =
      CalcSpeed 16 (I2C_CalculateCCR 16 400000).ccr
        (dutyMult 400000 (I2C_CalculateCCR 16 400000).duty) :=
  ccr_actual_roundtrip 16 400000 (by decide)

/-- C2: a format string that ends inside a directive does not stop at the
terminating NUL: the byte after the percent is the terminator itself,
which falls into the default (literal output) case, so the scan emits the
NUL byte and then keeps reading past the end of the string (here: past
the modelled memory).  Shown for the formats consisting of a bare percent
and of percent followed by a width digit. -/
theorem outputText_unterminated_overread :
    OutputText [37, 0] [] = Except.error ([0], 1) ∧
    OutputText [37, 53, 0] [] = Except.error ([0], 1) :=
  ⟨rfl, rfl⟩

/- Extending the emitted list keeps the char_count congruence mod 2^16. -/
theorem bump_app (out ext : List Nat) (cnt : Nat) (hc : cnt = out.length % 65536) :
    bump cnt ext.length = (out ++ ext).length % 65536 := by
  unfold bump
  rw [hc, Nat.mod_add_mod, List.length_append]

/- The scan maintains char_count = (emitted length) mod 2^16 on every
successful return. -/
theorem otStep_count : ∀ (fmt : List Nat) (args : List FmtArg) (sp : Option FmtSpec)
    (out : List Nat) (cnt : Nat) (o : List Nat) (c : Nat),
    cnt = out.length % 65536 →
    otStep fmt args sp out cnt = Except.ok (o, c) → c = o.length % 65536 := by
  intro fmt
  induction fmt with
  | nil =>
    intro args sp out cnt o c hc h
    simp [otStep] at h
  | cons c0 rest ih =>
    intro args sp out cnt o c hc h
    rcases sp with _ | spec
    · simp only [otStep] at h
      by_cases hz : c0 = 0
      · rw [if_pos hz] at h
        injection h with h1
        injection h1 with h2 h3
        subst h2
        subst h3
        exact hc
      · rw [if_neg hz] at h
        by_cases hp : c0 = 37
        · rw [if_pos hp] at h
          exact ih args _ out cnt o c hc h
        · rw [if_neg hp] at h
          exact ih args none (out ++ [c0]) _ o c (bump_app out [c0] cnt hc) h
    · simp only [otStep] at h
      by_cases hp : c0 = 37
      · rw [if_pos hp] at h
        exact ih args none (out ++ [37]) _ o c (bump_app out [37] cnt hc) h
      · rw [if_neg hp] at h
        by_cases hdig : 48 ≤ c0 ∧ c0 ≤ 57
        · rw [if_pos hdig] at h
          by_cases hdm : spec.decimals = -1
          · rw [if_pos hdm] at h
            exact ih args _ out cnt o c hc h
          · rw [if_neg hdm] at h
            exact ih args _ out cnt o c hc h
        · rw [if_neg hdig] at h
          by_cases hdot : c0 = 46
          · rw [if_pos hdot] at h
            exact ih args _ out cnt o c hc h
          · rw [if_neg hdot] at h
            by_cases hminus : c0 = 45
            · rw [if_pos hminus] at h
              exact ih args _ out cnt o c hc h
            · rw [if_neg hminus] at h
              by_cases hplus : c0 = 43
              · rw [if_pos hplus] at h
                exact ih args _ out cnt o c hc h
              · rw [if_neg hplus] at h
                by_cases hsp : c0 = 32
                · rw [if_pos hsp] at h
                  exact ih args _ out cnt o c hc h
                · rw [if_neg hsp] at h
                  by_cases hl : c0 = 108
                  · rw [if_pos hl] at h
                    exact ih args _ out cnt o c hc h
                  · rw [if_neg hl] at h
                    by_cases hb : c0 = 98
                    · rw [if_pos hb] at h
                      exact ih args _ out cnt o c hc h
                    · rw [if_neg hb] at h
                      by_cases hdi : c0 = 100 ∨ c0 = 105
                      · rw [if_pos hdi] at h
                        rcases args with _ | ⟨a, args2⟩
                        · simp at h
                        · rcases a with v | s
                          · exact ih args2 none _ _ o c (bump_app out _ cnt hc) h
                          · simp at h
                      · rw [if_neg hdi] at h
                        by_cases hpu : c0 = 112 ∨ c0 = 117
                        · rw [if_pos hpu] at h
                          rcases args with _ | ⟨a, args2⟩
                          · simp at h
                          · rcases a with v | s
                            · exact ih args2 none _ _ o c (bump_app out _ cnt hc) h
                            · simp at h
                        · rw [if_neg hpu] at h
                          by_cases hx : c0 = 120
                          · rw [if_pos hx] at h
                            rcases args with _ | ⟨a, args2⟩
                            · simp at h
                            · rcases a with v | s
                              · exact ih args2 none _ _ o c (bump_app out _ cnt hc) h
                              · simp at h
                          · rw [if_neg hx] at h
                            by_cases hcv : c0 = 99
                            · rw [if_pos hcv] at h
                              rcases args with _ | ⟨a, args2⟩
                              · simp at h
                              · rcases a with v | s
                                · exact ih args2 none _ _ o c (bump_app out _ cnt hc) h
                                · simp at h
                            · rw [if_neg hcv] at h
                              by_cases hsv : c0 = 115
                              · rw [if_pos hsv] at h
                                rcases args with _ | ⟨a, args2⟩
                                · simp at h
                                · rcases a with v | s
                                  · simp at h
                                  · exact ih args2 none _ _ o c (bump_app out _ cnt hc) h
                              · rw [if_neg hsv] at h
                                exact ih args none (out ++ [c0]) _ o c
                                  (bump_app out [c0] cnt hc) h

/-- C4 (amended): the value OutputText returns on a completed scan is the
number of bytes sent to the sink reduced modulo 65536 (char_count is a
uint16_t), hence exactly that number whenever fewer than 65536 bytes are
sent. -/
theorem outputText_count (fmt : List Nat) (args : List FmtArg) (o : List Nat) (c : Nat)
    (h : OutputText fmt args = Except.ok (o, c)) : c = o.length % 65536 :=
  otStep_count fmt args none [] 0 o c rfl h

/-- Witness for outputText_count on the two-byte literal format "hi". -/
theorem outputText_count_witness : (2 : Nat) = ([104, 105] : List Nat).length % 65536 :=
  outputText_count [104, 105, 0] [] [104, 105] 2 rfl

/- A pure-literal run of n identical bytes emits them all and adds n to
char_count modulo 2^16. -/
theorem otStep_literal_run : ∀ (n : Nat) (out : List Nat) (cnt : Nat), cnt < 65536 →
    otStep (List.replicate n 97 ++ [0]) [] none out cnt =
      Except.ok (out ++ List.replicate n 97, (cnt + n) % 65536) := by
  intro n
  induction n with
  | zero =>
    intro out cnt hcnt
    simp [otStep, Nat.mod_eq_of_lt hcnt]
  | succ m ih =>
    intro out cnt hcnt
    rw [List.replicate_succ, List.cons_append]
    simp only [otStep]
    rw [if_neg (by decide), if_neg (by decide)]
    rw [ih (out ++ [97]) (bump cnt 1) (Nat.mod_lt _ (by decide))]
    have hl : (out ++ [97]) ++ List.replicate m 97 = out ++ List.replicate (m + 1) 97 := by
      rw [List.replicate_succ, ← List.append_cons]
    have hcn : (bump cnt 1 + m) % 65536 = (cnt + (m + 1)) % 65536 := by
      unfold bump
      rw [Nat.mod_add_mod]
      have : cnt + 1 + m = cnt + (m + 1) := by omega
      rw [this]
    rw [hl, hcn, List.replicate_succ]

/-- Counterexample to C4 as stated: a format of 65536 literal bytes makes
OutputText send 65536 bytes but return 0, because char_count is a
uint16_t and wraps. -/
theorem outputText_count_overflow_counterexample :
    OutputText (List.replicate 65536 97 ++ [0]) [] =
      Except.ok (List.replicate 65536 97, 0) ∧
    (0 : Nat) ≠ (List.replicate 65536 97).length := by
  constructor
  · have h := otStep_literal_run 65536 [] 0 (by decide)
    rw [List.nil_append] at h
    norm_num at h
    exact h
  · rw [List.length_replicate]
    decide

/- On a NUL-free byte list the C string length is the list length. -/
theorem cstrLen_eq_length (s : List Nat) (hz : ∀ b ∈ s, b ≠ 0) :
    cstrLen s = s.length := by
  induction s with
  | nil => rfl
  | cons a t ih =>
    have ha : a ≠ 0 := hz a (by simp)
    simp only [cstrLen, ha, if_false, List.length_cons]
    rw [ih (fun b hb => hz b (by simp [hb]))]

/- The string-emission loop prints the first dec characters of a NUL-free
string (dec non-negative). -/
theorem sPrint_take (s : List Nat) : ∀ dec : Int, 0 ≤ dec → (∀ b ∈ s, b ≠ 0) →
    sPrint s dec = s.take dec.toNat := by
  induction s with
  | nil => intro dec _ _; simp [sPrint]
  | cons a t ih =>
    intro dec hdec hz
    have ha : a ≠ 0 := hz a (by simp)
    by_cases hpos : 0 < dec
    · simp only [sPrint, ha, if_false, hpos, if_true]
      rw [ih (dec - 1) (by omega) (fun b hb => hz b (by simp [hb]))]
      have he : dec.toNat = (dec - 1).toNat + 1 := by omega
      rw [he, List.take_succ_cons]
    · have h0 : dec = 0 := by omega
      simp [sPrint, ha, hpos, h0]

/-- C8 (amended): for every %s directive with width and a NUL-free string
of length at most 127, OutputText's s conversion prints the string capped
at the precision when one is given (all of it otherwise) and pads with
spaces — before the text by default, after it under the left-justify
flag — but the pad count is width minus the FULL string length (clamped
at zero), not width minus the capped printed length. -/
theorem sDirective_spec (jl : Bool) (width : Nat) (d : Int) (s : List Nat)
    (hlen : s.length ≤ 127) (hz : ∀ b ∈ s, b ≠ 0)
    (hd : d = -1 ∨ 0 ≤ d) :
    sDirective jl width d s =
      (if jl = false then List.replicate (width - s.length) 32 else []) ++
      s.take (if d = -1 then s.length else d.toNat) ++
      (if jl = true then List.replicate (width - s.length) 32 else []) := by
  have hcl : cstrLen s = s.length := cstrLen_eq_length s hz
  simp only [sDirective, hcl]
  have h1 : s.length % 65536 = s.length := Nat.mod_eq_of_lt (by omega)
  have h2 : s.length % 256 = s.length := Nat.mod_eq_of_lt (by omega)
  rw [h1, h2]
  have hpad : (if s.length < width then List.replicate (width - s.length) 32 else []) =
      List.replicate (width - s.length) 32 := by
    by_cases hw : s.length < width
    · rw [if_pos hw]
    · rw [if_neg hw]
      have hz2 : width - s.length = 0 := by omega
      rw [hz2]
      rfl
  rcases hd with hd | hd
  · subst hd
    rw [if_pos rfl]
    have hi8 : i8 (Int.ofNat s.length) = Int.ofNat s.length := by
      unfold i8
      have hc : Int.ofNat s.length = (s.length : Int) := rfl
      rw [hc]
      omega
    rw [hi8]
    rw [sPrint_take s (Int.ofNat s.length) (Int.ofNat_nonneg _) hz]
    have ht : (Int.ofNat s.length).toNat = s.length := rfl
    rw [ht]
    cases jl with
    | false => simp [hpad]
    | true => simp [hpad]
  · have hne : ¬ (d = -1) := by omega
    rw [if_neg hne]
    rw [sPrint_take s d hd hz]
    rw [if_neg hne]
    cases jl with
    | false => simp [hpad]
    | true => simp [hpad]

/-- Counterexample to C8 as stated: format "%5.1s" with argument "abc"
emits only 2 pad spaces (width 5 minus full length 3) before the single
capped character, so the directive's total output is 3 bytes, not the
field width 5 that padding to width minus the capped length would give. -/
theorem s_padding_counterexample :
    OutputText [37, 53, 46, 49, 115, 0] [FmtArg.str [97, 98, 99]] =
      Except.ok ([32, 32, 97], 3) ∧ ([32, 32, 97] : List Nat).length ≠ 5 :=
  ⟨rfl, by decide⟩

/-- Witness for sDirective_spec: width 5, precision 1, string "abc",
right-justified. -/
theorem sDirective_spec_witness :
    sDirective false 5 1 [97, 98, 99] =
      (if false = false then List.replicate (5 - [97, 98, 99].length) 32 else []) ++
      [97, 98, 99].take (if (1 : Int) = -1 then [97, 98, 99].length else (1 : Int).toNat) ++
      (if false = true then List.replicate (5 - [97, 98, 99].length) 32 else []) :=
  sDirective_spec false 5 1 [97, 98, 99] (by decide) (by decide) (Or.inr (by decide))
